import Mathlib

/-!
Verification of the search-and-verify engine of `src/bigolchungus.cpp`
against its design specification.

The engine brute-forces a 64-bit nonce: it partitions the nonce space into
windows, dispatches each window to a parallel backend, and independently
re-verifies any candidate the backend reports before printing it.

Shallow embedding conventions:
* bytes are `Nat` values, byte buffers are `List Nat`;
* 64-bit machine arithmetic is `Nat` arithmetic reduced modulo `U64 = 2 ^ 64`;
* the blake2s digest (`blake2s_ref.h`, not among the analysed sources) is an
  explicit parameter `H : List Nat → List Nat` mapping the byte stream fed
  through `blake2s_update` calls to the 32-byte digest; the spec (§4.1, §8)
  only requires it to be a deterministic pure function of that stream;
* fallible steps return `Option` / `Except`; `assert` failures and `exit`
  are the error cases.
-/

namespace Bigolchungus

set_option maxRecDepth 100000

/-- The size of the 64-bit nonce domain; `uint64_t` and `size_t` arithmetic
in the source is arithmetic modulo this constant. -/
def U64 : Nat := 2 ^ 64

/-- Little-endian byte serialization of a 64-bit value: the in-memory bytes of
a `uint64_t` on the little-endian hosts this program targets.  This is what
`blake2s_update(&state, &nonce, 8)` feeds to the digest (lines 87 and 241/243). -/
def le64 (n : Nat) : List Nat :=
  [n % 256, n / 2 ^ 8 % 256, n / 2 ^ 16 % 256, n / 2 ^ 24 % 256,
   n / 2 ^ 32 % 256, n / 2 ^ 40 % 256, n / 2 ^ 48 % 256, n / 2 ^ 56 % 256]

/-- Value of a little-endian byte list: what `fread(&start_nonce, 1, 8, f)`
leaves in a `uint64_t` whose memory holds the given bytes. -/
def fromLE64 : List Nat → Nat
  | [] => 0
  | b :: bs => b + 256 * fromLE64 bs

/-- Modelled from the spec: `compare_uint256` is declared in `common.h`, which is
not among the analysed sources.  Spec §4.2: both 32-byte arguments are big-endian
256-bit values, compared byte-by-byte from the most significant byte with an
early exit at the first differing byte.  The call sites fix the convention:
`compare_uint256(target, hash)` is `-1` exactly when `hash > target` (failure;
`main` line 248 tests `== -1`), and `0` or `1` (i.e. `hash <= target`) is a pass. -/
def compare_uint256 : List Nat → List Nat → Int
  | t :: ts, c :: cs =>
      if c < t then 1 else if t < c then -1 else compare_uint256 ts cs
  | _, _ => 0

/-- Byte stream hashed by `ref_search_nonce` (lines 86-89):
`blake2s_update(&state, &nonce, 8)` then
`blake2s_update(&state, buf, (320 - 64 + last_block_size) - 8)` — note that the
second update starts at `buf`, i.e. at header offset 0, not at offset 8. -/
def ref_hash_input (nonce : Nat) (buf : List Nat) (last_block_size : Nat) : List Nat :=
  le64 nonce ++ buf.take (320 - 64 + last_block_size - 8)

/-- Byte stream hashed by the verification guard in `main` (lines 237-246):
with `-f` (`alternativeNonce`), `buf[0, bufsize-8)` then the 8 nonce bytes;
otherwise the 8 nonce bytes then `buf[8, 8 + (bufsize-8))`. -/
def guard_hash_input (alternativeNonce : Bool) (nonce : Nat)
    (buf : List Nat) (bufsize : Nat) : List Nat :=
  if alternativeNonce then
    buf.take (bufsize - 8) ++ le64 nonce
  else
    le64 nonce ++ (buf.drop 8).take (bufsize - 8)

/-- Modelled from the spec: the Hash Oracle input contract (§4.1, §3
NonceEmbedding).  With the suffix embedding (`alternativeNonce`), the digest
function is applied to header bytes `[0, length-8)` followed by the 8 nonce
bytes; with the prefix embedding, to the 8 nonce bytes followed by header
bytes `[8, length)`. -/
def oracle_hash_input (alternativeNonce : Bool) (nonce : Nat)
    (header : List Nat) : List Nat :=
  if alternativeNonce then
    header.take (header.length - 8) ++ le64 nonce
  else
    le64 nonce ++ header.drop 8

/-- `ref_search_nonce` (lines 70-94): the standalone reference lane.  Lane `gid`
walks `work_set` consecutive nonces starting at `start_nonce + gid * work_set`
(in `uint64_t` arithmetic) and stores each comparison outcome at result slot
`gid * work_set + i` (a `uint8_t`, so the `int` comparison result is reduced
modulo 256).  The returned trace lists, in execution order,
`(slot, nonce, stored byte)`. -/
def ref_search_nonce (H : List Nat → List Nat) (gid start_nonce work_set : Nat)
    (buf : List Nat) (last_block_size : Nat) (target_hash : List Nat) :
    List (Nat × Nat × Nat) :=
  let nonce0 := (start_nonce + gid * work_set % U64) % U64
  (List.range work_set).map fun i =>
    let nonce := (nonce0 + i) % U64
    let hash := H (ref_hash_input nonce buf last_block_size)
    ((gid * work_set + i) % U64, nonce, (compare_uint256 target_hash hash % 256).toNat)

/-- Header intake of `main` (lines 180-198): `fread` reads at most
`BUF_SIZE = 4096` bytes from the stream; the asserts require
`8 <= bufsize`, `bufsize < 4096` and `320 - 64 + 1 <= bufsize <= 320`
(a failed assert aborts the run: `none`); then
`memset(buf + 256 + last_block_size, 0, 64 - last_block_size)` zero-pads the
tail of the 320-byte region, with `last_block_size = bufsize - 256`.
The result is the 320-byte header region the search uses. -/
def read_header (stream : List Nat) : Option (List Nat) :=
  let bufsize := min stream.length 4096
  if 8 ≤ bufsize ∧ bufsize < 4096 ∧ (320 - 64 + 1 ≤ bufsize ∧ bufsize ≤ 320) then
    some (stream.take bufsize ++ List.replicate (320 - bufsize) 0)
  else
    none

/-- `std::stoi(optarg, 0, 16)` at line 155: `std::stoi` parses into `int` and
raises `std::out_of_range` (uncaught here, so the process terminates) when the
parsed value does not fit in `int`.  For a nonnegative hexadecimal numeral of
value `v` the call yields `v` iff `v ≤ INT_MAX = 2 ^ 31 - 1`. -/
def stoi_hex (v : Nat) : Option Nat :=
  if v ≤ 2 ^ 31 - 1 then some v else none

/-- Handling of option `-n` (lines 153-155): the parsed `int` is stored into
the `uint64_t` `nonceOverride`; `none` is the uncaught out-of-range exception. -/
def parse_nonce_override (v : Nat) : Option Nat :=
  (stoi_hex v).map (fun x => x % U64)

/-- Conversion of an `int` command-line option to `size_t` (lines 202-204):
two's-complement conversion modulo `2 ^ 64`. -/
def size_from_int (i : Int) : Nat :=
  (i % (2 ^ 64 : Int)).toNat

/-- `nonce_step_size` (line 206): the `size_t` product `global_size *
workset_size`, which wraps modulo `2 ^ 64`; the code performs no overflow or
validity check on the configuration. -/
def nonce_step_size (global_size workset_size : Nat) : Nat :=
  global_size * workset_size % U64

/-- Start-nonce selection of `main` (lines 209-218).  `start_nonce` is
initialized to 0; with `-n` it becomes the override; otherwise
`fread(&start_nonce, 1, 8, urandom)` overwrites as many of its 8 bytes as the
entropy source yields (unchecked: a short read leaves the remaining bytes 0).
`urandomBytes` is the byte sequence the read actually delivers. -/
def initial_start_nonce (nonceOverridden : Bool) (nonceOverride : Nat)
    (urandomBytes : List Nat) : Nat :=
  if nonceOverridden then
    nonceOverride % U64
  else
    fromLE64 (urandomBytes.take 8 ++ List.replicate (8 - min 8 urandomBytes.length) 0)

/-- Modelled from the spec: the parallel backend (`opencl_backend.hpp` and the
OpenCL kernels) is not among the analysed sources; only its call contract is
specified.  Spec §4.3: `dispatchWindow(start_nonce)` evaluates the Hash Oracle
for every nonce in `[start_nonce, start_nonce + W)` (64-bit arithmetic) and
returns the first satisfying nonce under the comparator, or a sentinel when
none satisfies; per §9 the sentinel is the integer 0, representationally
identical to the nonce value 0 (`main` line 233 tests `found != 0`). -/
def dispatchWindow (H : List Nat → List Nat) (alternativeNonce : Bool)
    (buf : List Nat) (bufsize : Nat) (target_hash : List Nat)
    (W start_nonce : Nat) : Nat :=
  match (List.range W).find? (fun t =>
      compare_uint256 target_hash
        (H (oracle_hash_input alternativeNonce ((start_nonce + t) % U64)
          (buf.take bufsize))) != -1) with
  | some t => (start_nonce + t) % U64
  | none => 0

/-- One iteration of the windowed search loop of `main` (lines 227-264):
dispatch the window at `start_nonce`; a nonzero report is a candidate
(`Sum.inl`), otherwise `start_nonce += nonce_step_size` in `uint64_t`
arithmetic (`Sum.inr`) and the loop repeats. -/
def search_step (H : List Nat → List Nat) (alternativeNonce : Bool)
    (buf : List Nat) (bufsize : Nat) (target_hash : List Nat)
    (W start_nonce : Nat) : Sum Nat Nat :=
  let found := dispatchWindow H alternativeNonce buf bufsize target_hash W start_nonce
  if found != 0 then Sum.inl found else Sum.inr ((start_nonce + W) % U64)

/-- Candidate handling of `main` (lines 236-261): recompute the digest of the
reported nonce over the guard byte stream; if the comparison yields `-1` the
run aborts via `exit(-1)` without printing the nonce (`Except.error (-1)`),
otherwise the nonce is printed (`Except.ok`). -/
def handle_found (H : List Nat → List Nat) (alternativeNonce : Bool)
    (buf : List Nat) (bufsize : Nat) (target_hash : List Nat)
    (found : Nat) : Except Int Nat :=
  if compare_uint256 target_hash (H (guard_hash_input alternativeNonce found buf bufsize)) = -1
  then Except.error (-1)
  else Except.ok found

/-- The windowed search loop of `main` (lines 227-265), fuel-bounded: run
windows until the backend reports a candidate, then hand it to the
verification guard; `none` means the fuel ran out while still searching. -/
def run_search (H : List Nat → List Nat) (alternativeNonce : Bool)
    (buf : List Nat) (bufsize : Nat) (target_hash : List Nat)
    (W : Nat) : Nat → Nat → Option (Except Int Nat)
  | 0, _ => none
  | fuel + 1, start_nonce =>
    match search_step H alternativeNonce buf bufsize target_hash W start_nonce with
    | Sum.inl found =>
        some (handle_found H alternativeNonce buf bufsize target_hash found)
    | Sum.inr next => run_search H alternativeNonce buf bufsize target_hash W fuel next

/-- Start nonce of the k-th dispatched window when the first k windows all
miss: iterates the advance of line 263 (`start_nonce += nonce_step_size` in
`uint64_t` arithmetic). -/
def loop_start (W init : Nat) : Nat → Nat
  | 0 => init
  | k + 1 => (loop_start W init k + W) % U64

/-- Digest stand-in that returns the all-zero 32-byte digest; used to
instantiate the abstract digest parameter on concrete inputs. -/
def H0 : List Nat → List Nat := fun _ => List.replicate 32 0

/-- Digest stand-in that returns the all-one 32-byte digest. -/
def H1 : List Nat → List Nat := fun _ => List.replicate 32 1

/-- A concrete all-zero 320-byte header region. -/
def buf0 : List Nat := List.replicate 320 0

/-- A concrete 320-byte header region whose first byte is 1. -/
def buf1 : List Nat := 1 :: List.replicate 319 0

/-- The all-`0xFF` target: every 32-byte digest passes the comparator. -/
def targetFF : List Nat := List.replicate 32 255

/-- The all-zero target: only the all-zero digest passes the comparator. -/
def target0 : List Nat := List.replicate 32 0

/-- Reading the little-endian serialization back recovers the value modulo the
64-bit domain. -/
theorem fromLE64_le64 (n : Nat) : fromLE64 (le64 n) = n % U64 := by
  simp only [fromLE64, le64, U64]
  norm_num
  omega

/-- Claim C10: at both hashing sites — the reference lane stream and the
verification guard stream, in both embedding modes — the digest input is
determined by the nonce exactly through its little-endian 8-byte
serialization `le64`, which is injective on the 64-bit nonce domain; hence
two nonces below `2 ^ 64` produce the same hashed byte stream iff they are
equal. -/
theorem C10_le64_nonce_serialization (buf : List Nat) (last_block_size bufsize : Nat)
    (alt : Bool) (n m : Nat) (hn : n < U64) (hm : m < U64) :
    (ref_hash_input n buf last_block_size = ref_hash_input m buf last_block_size ↔ n = m)
  ∧ (guard_hash_input alt n buf bufsize = guard_hash_input alt m buf bufsize ↔ n = m)
  ∧ (le64 n = le64 m ↔ n = m) := by
  have hle : le64 n = le64 m ↔ n = m := by
    constructor
    · intro h
      have h2 := congrArg fromLE64 h
      rw [fromLE64_le64, fromLE64_le64, Nat.mod_eq_of_lt hn, Nat.mod_eq_of_lt hm] at h2
      exact h2
    · intro h; rw [h]
  refine ⟨?_, ?_, hle⟩
  · constructor
    · intro h
      exact hle.mp (List.append_cancel_right h)
    · intro h; rw [h]
  · constructor
    · intro h
      cases alt with
      | false =>
          simp only [guard_hash_input, Bool.false_eq_true, if_false] at h
          exact hle.mp (List.append_cancel_right h)
      | true =>
          simp only [guard_hash_input, if_true] at h
          exact hle.mp (List.append_cancel_left h)
    · intro h; rw [h]

/-- Claim C10 witness: concrete instance of the serialization injectivity. -/
theorem C10_witness : le64 3 = le64 5 ↔ 3 = 5 :=
  (C10_le64_nonce_serialization [] 0 0 false 3 5 (by decide) (by decide)).2.2

/-- Claim C2 (code bug): at the concrete failing input — prefix mode,
header `buf1` of provided length 257 (`last_block_size` 1), nonce 0 — the
byte stream hashed by `ref_search_nonce` differs from the Hash Oracle
contract stream (the reference hashes header bytes `[0, L-8)`, the contract
requires `[8, L)`), while the verification guard's stream in `main` does
match the contract. -/
theorem C2_ref_stream_deviates_from_oracle :
    ref_hash_input 0 buf1 1 ≠ oracle_hash_input false 0 (buf1.take 257)
  ∧ guard_hash_input false 0 buf1 257 = oracle_hash_input false 0 (buf1.take 257) := by
  constructor
  · decide
  · decide

/-- Claim C9 (code bug): the hexadecimal nonce override is parsed with
`std::stoi`, which only accepts values up to `INT_MAX = 2 ^ 31 - 1`; the
override `0x80000000 = 2 ^ 31` terminates the process instead of taking
effect, while `0x7FFFFFFF` is accepted exactly. -/
theorem C9_stoi_overflow :
    parse_nonce_override (2 ^ 31) = none
  ∧ parse_nonce_override (2 ^ 31 - 1) = some (2 ^ 31 - 1) := by
  constructor
  · decide
  · decide

/-- Claim C3 (corrected, counterexample): with `nonce_override = 0`,
`global_size = 1`, `workset_size = 1` and the all-`0xFF` target, nonce 0 does
satisfy the target, yet the engine's first loop iteration advances to nonce 1
instead of returning nonce 0: the backend's report of the satisfying nonce 0
coincides with the not-found sentinel. -/
theorem C3_counterexample_nonce0_skipped :
    compare_uint256 targetFF (H0 (oracle_hash_input false 0 (buf0.take 257))) ≠ -1
  ∧ search_step H0 false buf0 257 targetFF 1 0 = Sum.inr 1 := by
  constructor
  · decide
  · decide

/-- Claim C3 (amended): with `nonce_override = 0`, `global_size = 1` and
`workset_size = 1`, the engine deterministically advances to nonce 1 for the
next window whether or not nonce 0's digest satisfies the target — a true
solution at nonce 0 is indistinguishable from the sentinel and is skipped. -/
theorem C3_always_advances (H : List Nat → List Nat) (alt : Bool) (buf : List Nat)
    (bufsize : Nat) (target_hash : List Nat) :
    search_step H alt buf bufsize target_hash 1 0 = Sum.inr 1 := by
  have hd : dispatchWindow H alt buf bufsize target_hash 1 0 = 0 := by
    rw [dispatchWindow]
    split
    next t hp =>
      have ht := List.mem_of_find?_eq_some hp
      rw [List.mem_range] at ht
      have ht0 : t = 0 := by omega
      subst ht0
      norm_num [U64]
    next => rfl
  rw [search_step, hd]
  norm_num [U64]

/-- Claim C4 (corrected, counterexample): a configuration whose true product
exceeds the 64-bit domain (reachable by passing `-g -1`, since the `int`
option is converted to `size_t`) is not rejected — `nonce_step_size` silently
wraps modulo `2 ^ 64` — and a loop increment that overflows the 64-bit domain
silently wraps `start_nonce` to a lower value (here 0) and continues
searching, instead of halting with a space-exhausted outcome. -/
theorem C4_counterexample_silent_wrap :
    2 ^ 64 < size_from_int (-1) * 64
  ∧ nonce_step_size (size_from_int (-1)) 64 = 2 ^ 64 - 64
  ∧ search_step H1 false buf0 257 target0 1 (2 ^ 64 - 1) = Sum.inr 0 := by
  refine ⟨by decide, by decide, by decide⟩

/-- Claim C4 (amended): the code performs no overflow detection at all —
every configuration is accepted, `nonce_step_size` being the product reduced
modulo `2 ^ 64` (faithful exactly when the product does not overflow), and on
a missed window the loop always advances to `(start_nonce + W) % 2 ^ 64`,
silently wrapping instead of producing a space-exhausted outcome. -/
theorem C4_no_overflow_rejection :
    (∀ g w : Nat, nonce_step_size g w < U64 ∧ (g * w < U64 → nonce_step_size g w = g * w))
  ∧ (∀ (H : List Nat → List Nat) (alt : Bool) (buf : List Nat) (bufsize : Nat)
      (target_hash : List Nat) (W start_nonce : Nat),
      dispatchWindow H alt buf bufsize target_hash W start_nonce = 0 →
      search_step H alt buf bufsize target_hash W start_nonce
        = Sum.inr ((start_nonce + W) % U64)) := by
  constructor
  · intro g w
    constructor
    · exact Nat.mod_lt _ (by norm_num [U64])
    · intro h
      exact Nat.mod_eq_of_lt h
  · intro H alt buf bufsize target_hash W start_nonce h
    rw [search_step, h]
    norm_num

/-- Claim C4 witness: concrete instances of the amended statement. -/
theorem C4_witness :
    nonce_step_size 6 7 = 6 * 7
  ∧ search_step H1 false buf0 257 target0 1 5 = Sum.inr ((5 + 1) % U64) :=
  ⟨(C4_no_overflow_rejection.1 6 7).2 (by decide),
   C4_no_overflow_rejection.2 H1 false buf0 257 target0 1 5 (by decide)⟩

/-- Claim C5 (corrected, counterexample): starting at `2 ^ 64 - 2` with
`W = 2`, the first window misses and the second window starts at
`loop_start 2 (2 ^ 64 - 2) 1 = 0`, not at `initial + 1·W`: the window start
is computed modulo `2 ^ 64`, so after a wrap successive windows are not the
claimed mathematical arithmetic progression. -/
theorem C5_counterexample_window_start_wraps :
    search_step H1 false buf0 257 target0 2 (2 ^ 64 - 2)
      = Sum.inr (loop_start 2 (2 ^ 64 - 2) 1)
  ∧ loop_start 2 (2 ^ 64 - 2) 1 = 0
  ∧ (2 ^ 64 - 2) + 1 * 2 ≠ 0 := by
  refine ⟨by decide, by decide, by decide⟩

/-- Claim C5 (amended): as long as no candidate has been found the k-th
dispatched window starts at exactly `(initial + k·W) % 2 ^ 64`; whenever
`initial + (k+1)·W` stays below `2 ^ 64` this is exactly `initial + k·W` and
window k+1 begins exactly where window k ends, so un-wrapped successive
windows are contiguous with no overlap and no skipped nonce. -/
theorem C5_window_starts_mod64 :
    (∀ (H : List Nat → List Nat) (alt : Bool) (buf : List Nat) (bufsize : Nat)
        (target_hash : List Nat) (W start_nonce : Nat),
        dispatchWindow H alt buf bufsize target_hash W start_nonce = 0 →
        search_step H alt buf bufsize target_hash W start_nonce
          = Sum.inr (loop_start W start_nonce 1))
  ∧ (∀ W init k : Nat, init < U64 → loop_start W init k = (init + k * W) % U64)
  ∧ (∀ W init k : Nat, init + (k + 1) * W < U64 →
        loop_start W init k + W = loop_start W init (k + 1)) := by
  have hmain : ∀ W init k : Nat, init < U64 → loop_start W init k = (init + k * W) % U64 := by
    intro W init k hinit
    induction k with
    | zero =>
        simp only [loop_start, Nat.zero_mul, Nat.add_zero]
        exact (Nat.mod_eq_of_lt hinit).symm
    | succ j ih =>
        rw [loop_start, ih, Nat.mod_add_mod, Nat.succ_mul, ← Nat.add_assoc]
  refine ⟨?_, hmain, ?_⟩
  · intro H alt buf bufsize target_hash W start_nonce h
    rw [search_step, h, loop_start, loop_start]
    norm_num
  · intro W init k h
    have hW0 : k * W ≤ (k + 1) * W := Nat.mul_le_mul_right W (by omega)
    have hinit : init < U64 := by omega
    have hk : init + k * W < U64 := by omega
    have hk1 : init + (k + 1) * W < U64 := h
    rw [hmain W init k hinit, hmain W init (k + 1) hinit,
        Nat.mod_eq_of_lt hk, Nat.mod_eq_of_lt hk1, Nat.succ_mul, ← Nat.add_assoc]

/-- Claim C5 witness: concrete instances of the amended statement. -/
theorem C5_witness :
    loop_start 3 10 2 = (10 + 2 * 3) % U64
  ∧ loop_start 1 5 0 + 1 = loop_start 1 5 1 :=
  ⟨C5_window_starts_mod64.2.1 3 10 2 (by decide),
   C5_window_starts_mod64.2.2 1 5 0 (by decide)⟩

/-- Claim C7: the run proceeds to search iff the number of header bytes read
(at most the 4096-byte buffer capacity) lies in `[257, 320]`; on acceptance
the provided bytes are unchanged and the tail up to offset 320 is zero. -/
theorem C7_header_length_gate :
    (∀ stream : List Nat, (read_header stream).isSome ↔
        257 ≤ min stream.length 4096 ∧ min stream.length 4096 ≤ 320)
  ∧ (∀ stream out : List Nat, read_header stream = some out →
        257 ≤ stream.length ∧ stream.length ≤ 320 ∧ out.length = 320
        ∧ out.take stream.length = stream
        ∧ out.drop stream.length = List.replicate (320 - stream.length) 0) := by
  constructor
  · intro stream
    simp only [read_header]
    split
    next h =>
      simp only [Option.isSome_some, true_iff]
      omega
    next h =>
      simp only [Option.isSome_none, Bool.false_eq_true, false_iff]
      omega
  · intro stream out h
    simp only [read_header] at h
    split at h
    next hc =>
      rw [Option.some.injEq] at h
      have hlen : 257 ≤ stream.length ∧ stream.length ≤ 320 := by omega
      have hmin : min stream.length 4096 = stream.length := by omega
      subst h
      rw [hmin, List.take_length]
      refine ⟨hlen.1, hlen.2, ?_, List.take_left stream _, List.drop_left stream _⟩
      rw [List.length_append, List.length_replicate]
      omega
    next hc =>
      cases h


/-- Claim C7 witness: a header stream of 257 bytes is accepted, its bytes are
unchanged and its tail is zero-padded up to offset 320. -/
theorem C7_witness :
    257 ≤ (List.replicate 257 7 : List Nat).length
  ∧ (List.replicate 257 7 : List Nat).length ≤ 320
  ∧ ((List.replicate 257 7 ++ List.replicate 63 0 : List Nat)).length = 320
  ∧ ((List.replicate 257 7 ++ List.replicate 63 0 : List Nat)).take
        (List.replicate 257 7 : List Nat).length = List.replicate 257 7
  ∧ ((List.replicate 257 7 ++ List.replicate 63 0 : List Nat)).drop
        (List.replicate 257 7 : List Nat).length
      = List.replicate (320 - (List.replicate 257 7 : List Nat).length) 0 :=
  C7_header_length_gate.2 (List.replicate 257 7)
    (List.replicate 257 7 ++ List.replicate 63 0) (by decide)

/-- Appending zero bytes after a little-endian byte list does not change its
value. -/
theorem fromLE64_append_zeros (bs : List Nat) (k : Nat) :
    fromLE64 (bs ++ List.replicate k 0) = fromLE64 bs := by
  induction bs with
  | nil =>
      simp only [List.nil_append]
      induction k with
      | zero => simp [fromLE64]
      | succ j ih => simp [List.replicate_succ, fromLE64, ih]
  | cons b bs ih => simp [fromLE64, ih]

/-- One unfolding step of the fuel-bounded search loop. -/
theorem run_search_succ (H : List Nat → List Nat) (alt : Bool) (buf : List Nat)
    (bufsize : Nat) (target_hash : List Nat) (W fuel start_nonce : Nat) :
    run_search H alt buf bufsize target_hash W (fuel + 1) start_nonce
      = match search_step H alt buf bufsize target_hash W start_nonce with
        | Sum.inl found => some (handle_found H alt buf bufsize target_hash found)
        | Sum.inr next => run_search H alt buf bufsize target_hash W fuel next := rfl

/-- Claim C8 (corrected, counterexample): when the entropy read delivers no
bytes, `start_nonce` keeps its initialization value 0 and the run silently
continues the search from that fixed, predictable start (here finding and
emitting nonce 1 under the all-0xFF target) instead of terminating
fatally. -/
theorem C8_counterexample_silent_zero_seed :
    initial_start_nonce false 0 [] = 0
  ∧ run_search H0 false buf0 257 targetFF 1 2 (initial_start_nonce false 0 [])
      = some (Except.ok 1) := by
  constructor
  · decide
  · rfl

/-- Claim C8 (amended): the entropy read is unchecked — when it yields fewer
than 8 bytes the unwritten bytes of the zero-initialized start_nonce
remain 0, so the seed is the little-endian value of whatever was read (0 for
an empty read), and the engine proceeds with the ordinary search loop from
that value; no fatal path exists (a failed open is undefined behavior). -/
theorem C8_entropy_short_read :
    (∀ bytes : List Nat, bytes.length ≤ 8 →
        initial_start_nonce false 0 bytes = fromLE64 bytes)
  ∧ initial_start_nonce false 0 [] = 0
  ∧ (∀ fuel : Nat,
        run_search H0 false buf0 257 targetFF 1 (fuel + 1 + 1) (initial_start_nonce false 0 [])
          = some (Except.ok 1)) := by
  have h1 : ∀ bytes : List Nat, bytes.length ≤ 8 →
      initial_start_nonce false 0 bytes = fromLE64 bytes := by
    intro bytes h
    simp only [initial_start_nonce, Bool.false_eq_true, if_false]
    rw [List.take_of_length_le h, fromLE64_append_zeros]
  refine ⟨h1, by decide, ?_⟩
  intro fuel
  have hi : initial_start_nonce false 0 [] = 0 := by decide
  have h0 : search_step H0 false buf0 257 targetFF 1 0 = Sum.inr 1 := by decide
  have hs1 : search_step H0 false buf0 257 targetFF 1 1 = Sum.inl 1 := by decide
  have h2 : handle_found H0 false buf0 257 targetFF 1 = Except.ok 1 := by rfl
  rw [hi, run_search_succ, h0]
  show run_search H0 false buf0 257 targetFF 1 (fuel + 1) 1 = some (Except.ok 1)
  rw [run_search_succ, hs1]
  show some (handle_found H0 false buf0 257 targetFF 1) = some (Except.ok 1)
  rw [h2]

/-- Claim C8 witness: a one-byte entropy read leaves the other seven seed
bytes zero. -/
theorem C8_witness : initial_start_nonce false 0 [3] = fromLE64 [3] :=
  C8_entropy_short_read.1 [3] (by decide)

/-- Claim C1: a nonce is emitted (`Except.ok`) only when the independently
recomputed digest of that nonce passes the comparator against the target;
when the recomputation fails the comparison, the run ends with the non-zero
status `-1` (`exit(-1)`) and no nonce is emitted — the loop is not resumed. -/
theorem C1_candidate_only_after_guard (H : List Nat → List Nat) (alt : Bool)
    (buf : List Nat) (bufsize : Nat) (target_hash : List Nat) (W : Nat) :
    (∀ fuel start_nonce n,
        run_search H alt buf bufsize target_hash W fuel start_nonce = some (Except.ok n) →
        compare_uint256 target_hash (H (guard_hash_input alt n buf bufsize)) ≠ -1)
  ∧ (∀ fuel start_nonce c,
        run_search H alt buf bufsize target_hash W fuel start_nonce = some (Except.error c) →
        c ≠ 0)
  ∧ (∀ fuel start_nonce,
        dispatchWindow H alt buf bufsize target_hash W start_nonce ≠ 0 →
        compare_uint256 target_hash
          (H (guard_hash_input alt
            (dispatchWindow H alt buf bufsize target_hash W start_nonce) buf bufsize)) = -1 →
        run_search H alt buf bufsize target_hash W (fuel + 1) start_nonce
          = some (Except.error (-1))) := by
  have hok : ∀ f n, handle_found H alt buf bufsize target_hash f = Except.ok n →
      compare_uint256 target_hash (H (guard_hash_input alt n buf bufsize)) ≠ -1 := by
    intro f n h
    rw [handle_found] at h
    split at h
    next hc => cases h
    next hc =>
      injection h with h2
      subst h2
      exact hc
  have herr : ∀ f c, handle_found H alt buf bufsize target_hash f = Except.error c →
      c = -1 := by
    intro f c h
    rw [handle_found] at h
    split at h
    next hc =>
      injection h with h2
      exact h2.symm
    next hc => cases h
  refine ⟨?_, ?_, ?_⟩
  · intro fuel
    induction fuel with
    | zero =>
        intro s n h
        simp [run_search] at h
    | succ k ih =>
        intro s n h
        rw [run_search_succ] at h
        split at h
        next found heq =>
          rw [Option.some.injEq] at h
          exact hok found n h
        next nxt heq =>
          exact ih nxt n h
  · intro fuel
    induction fuel with
    | zero =>
        intro s c h
        simp [run_search] at h
    | succ k ih =>
        intro s c h
        rw [run_search_succ] at h
        split at h
        next found heq =>
          rw [Option.some.injEq] at h
          have h2 := herr found c h
          subst h2
          decide
        next nxt heq =>
          exact ih nxt c h
  · intro fuel s hne hfail
    have hs : search_step H alt buf bufsize target_hash W s
        = Sum.inl (dispatchWindow H alt buf bufsize target_hash W s) := by
      rw [search_step]
      simp [bne_iff_ne, hne]
    rw [run_search_succ, hs]
    show some (handle_found H alt buf bufsize target_hash
          (dispatchWindow H alt buf bufsize target_hash W s))
        = some (Except.error (-1))
    rw [handle_found, if_pos hfail]

/-- Claim C1 witness: a run that emits nonce 5 has a passing recomputed
digest for it. -/
theorem C1_witness :
    compare_uint256 targetFF (H0 (guard_hash_input false 5 buf0 257)) ≠ -1 :=
  (C1_candidate_only_after_guard H0 false buf0 257 targetFF 1).1 1 5 5 (by rfl)

/-- Congruence for `flatMap` over pointwise-equal lane functions. -/
theorem flatMap_congr_left {α : Type _} {β : Type _} (l : List α) (f g : α → List β)
    (h : ∀ a ∈ l, f a = g a) : l.flatMap f = l.flatMap g := by
  simp only [List.flatMap]
  rw [List.map_congr_left h]

/-- Lane-indexed slot ranges tile `List.range (G * K)` exactly. -/
theorem range_mul_flatMap (G K : Nat) :
    (List.range G).flatMap (fun i => (List.range K).map (fun j => i * K + j))
      = List.range (G * K) := by
  induction G with
  | zero => simp
  | succ g ih =>
    rw [List.range_succ, List.flatMap_append, ih, Nat.succ_mul, List.range_add]
    simp only [List.flatMap_cons, List.flatMap_nil, List.append_nil]

/-- Claim C6: lane `gid < G` of `ref_search_nonce` evaluates exactly the
nonces `S + gid*K + j` for `0 ≤ j < K` (64-bit arithmetic) in increasing
order, writing to the distinct result slots `gid*K + j`; over all lanes the
slots are exactly `0, …, G*K - 1` and the evaluated nonces are exactly the
window `[S, S + G*K)` reduced modulo `2 ^ 64`, with no duplicates and — when
the window does not wrap — with no gaps as the literal interval. -/
theorem C6_partition_coverage (H : List Nat → List Nat) (S K G : Nat)
    (buf : List Nat) (last_block_size : Nat) (target_hash : List Nat)
    (gid : Nat) (hgid : gid < G) (hW : G * K ≤ U64) :
    ((ref_search_nonce H gid S K buf last_block_size target_hash).map (fun r => r.1)
        = (List.range K).map (fun j => gid * K + j))
  ∧ ((ref_search_nonce H gid S K buf last_block_size target_hash).map (fun r => r.2.1)
        = (List.range K).map (fun j => (S + (gid * K + j)) % U64))
  ∧ ((List.range G).flatMap
        (fun i => (ref_search_nonce H i S K buf last_block_size target_hash).map
          (fun r => r.1))
        = List.range (G * K))
  ∧ ((List.range G).flatMap
        (fun i => (ref_search_nonce H i S K buf last_block_size target_hash).map
          (fun r => r.2.1))
        = (List.range (G * K)).map (fun t => (S + t) % U64))
  ∧ ((List.range (G * K)).map (fun t => (S + t) % U64)).Nodup
  ∧ (S + G * K ≤ U64 →
        (List.range (G * K)).map (fun t => (S + t) % U64)
          = (List.range (G * K)).map (fun t => S + t)) := by
  have hmodadd : ∀ x i : Nat, ((S + x % U64) % U64 + i) % U64 = (S + (x + i)) % U64 := by
    intro x i
    have hx : S + x % U64 + i ≡ S + (x + i) [MOD U64] := by
      have h1 : x % U64 ≡ x [MOD U64] := Nat.mod_modEq x U64
      calc S + x % U64 + i
          ≡ S + x + i [MOD U64] := Nat.ModEq.add_right i (Nat.ModEq.add_left S h1)
        _ = S + (x + i) := by rw [Nat.add_assoc]
    calc ((S + x % U64) % U64 + i) % U64
        = (S + x % U64 + i) % U64 := Nat.mod_add_mod _ _ _
      _ = (S + (x + i)) % U64 := hx
  have hslot : ∀ i j : Nat, i < G → j < K → i * K + j < U64 := by
    intro i j hi hj
    have h1 : i * K + j < (i + 1) * K := by
      rw [Nat.add_mul, Nat.one_mul]
      omega
    have h2 : (i + 1) * K ≤ G * K := Nat.mul_le_mul_right K hi
    omega
  have lane_slots : ∀ i, i < G →
      (ref_search_nonce H i S K buf last_block_size target_hash).map (fun r => r.1)
        = (List.range K).map (fun j => i * K + j) := by
    intro i hi
    simp only [ref_search_nonce, List.map_map]
    apply List.map_congr_left
    intro j hj
    rw [List.mem_range] at hj
    exact Nat.mod_eq_of_lt (hslot i j hi hj)
  have lane_nonces : ∀ i, i < G →
      (ref_search_nonce H i S K buf last_block_size target_hash).map (fun r => r.2.1)
        = (List.range K).map (fun j => (S + (i * K + j)) % U64) := by
    intro i hi
    simp only [ref_search_nonce, List.map_map]
    apply List.map_congr_left
    intro j hj
    exact hmodadd (i * K) j
  have hcover := range_mul_flatMap G K
  have hnodup : ((List.range (G * K)).map (fun t => (S + t) % U64)).Nodup := by
    apply List.Nodup.map_on ?_ (List.nodup_range (G * K))
    intro x hx y hy hxy
    rw [List.mem_range] at hx hy
    have h1 : x ≡ y [MOD U64] := Nat.ModEq.add_left_cancel' S hxy
    have h2 : x % U64 = x := Nat.mod_eq_of_lt (by omega)
    have h3 : y % U64 = y := Nat.mod_eq_of_lt (by omega)
    calc x = x % U64 := h2.symm
      _ = y % U64 := h1
      _ = y := h3
  refine ⟨lane_slots gid hgid, lane_nonces gid hgid, ?_, ?_, hnodup, ?_⟩
  · rw [flatMap_congr_left _ _ _ (fun i hi => lane_slots i (List.mem_range.mp hi))]
    exact hcover
  · rw [flatMap_congr_left _ _ _ (fun i hi => lane_nonces i (List.mem_range.mp hi))]
    conv_rhs => rw [← hcover, List.map_flatMap]
    apply flatMap_congr_left
    intro i hi
    rw [List.map_map]
    apply List.map_congr_left
    intro j hj
    rfl
  · intro hS
    apply List.map_congr_left
    intro t ht
    rw [List.mem_range] at ht
    exact Nat.mod_eq_of_lt (by omega)

/-- Claim C6 witness: lane 1 of a `G = 3`, `K = 2` window starting at 7
evaluates exactly the nonces 9 and 10. -/
theorem C6_witness :
    (ref_search_nonce H0 1 7 2 buf0 1 target0).map (fun r => r.2.1)
      = (List.range 2).map (fun j => (7 + (1 * 2 + j)) % U64) :=
  (C6_partition_coverage H0 7 2 3 buf0 1 target0 1 (by decide) (by decide)).2.1

end Bigolchungus
